import Mathlib

/-!
Shallow embedding of `src/codebase_extractor.py` (a codebase snapshot tool)
and verification of its specification claims.

Python strings are modelled as `List Char`; file bytes as `List Nat`.
All definitions are translated from the Python source; platform-dependent
behaviour (path separator, `os.linesep`) is fixed to POSIX/Linux.
-/

namespace Extractor

/-- Characters Python's `str.split()` and `str.strip()` treat as whitespace
(space, tab, newline, carriage return, vertical tab, form feed). -/
def isPyWs (c : Char) : Bool :=
  c = ' ' || c = '\t' || c = '\n' || c = '\r' || c = '\x0b' || c = '\x0c'

/-- Python `str.strip()`: drop leading and trailing whitespace. -/
def pyStrip (s : List Char) : List Char :=
  ((s.dropWhile isPyWs).reverse.dropWhile isPyWs).reverse

/-- Python `str.startswith(pre)`. -/
def pyStartsWith (s pre : List Char) : Bool :=
  pre.isPrefixOf s

/-- Python `str.endswith(suf)`. -/
def pyEndsWith (s suf : List Char) : Bool :=
  suf.isSuffixOf s

/-- Helper for `pySplitWs`: `acc` holds the current token reversed. -/
def pySplitWsAux : List Char → List Char → List (List Char)
  | [], acc => if acc = [] then [] else [acc.reverse]
  | c :: rest, acc =>
    if isPyWs c then
      (if acc = [] then pySplitWsAux rest [] else acc.reverse :: pySplitWsAux rest [])
    else
      pySplitWsAux rest (c :: acc)

/-- Python `str.split()` with no argument: split on whitespace runs,
empty tokens never produced. -/
def pySplitWs (s : List Char) : List (List Char) :=
  pySplitWsAux s []

/-- Helper for splitting on a single separator character, keeping empties. -/
def pySplitCharAux (sep : Char) : List Char → List Char → List (List Char)
  | [], acc => [acc.reverse]
  | c :: rest, acc =>
    if c = sep then acc.reverse :: pySplitCharAux sep rest []
    else pySplitCharAux sep rest (c :: acc)

/-- Python `str.split(sep)` for a one-character separator: empty pieces kept. -/
def pySplitChar (sep : Char) (s : List Char) : List (List Char) :=
  pySplitCharAux sep s []

/-- Python `for line in f` line splitting (after newline translation all line
breaks are `\n`): each line keeps its trailing `\n`; a final fragment without
a newline is yielded as-is; an empty file yields no lines. -/
def pyLines : List Char → List (List Char)
  | [] => []
  | c :: rest =>
    if c = '\n' then ['\n'] :: pyLines rest
    else
      match pyLines rest with
      | [] => [[c]]
      | l :: ls => (c :: l) :: ls

/-- Universal-newline translation performed by Python text-mode reads:
`\r\n` and a lone `\r` both become `\n`. -/
def translateNewlines : List Char → List Char
  | [] => []
  | [c] => [if c = '\r' then '\n' else c]
  | c1 :: c2 :: rest =>
    if c1 = '\r' then
      if c2 = '\n' then '\n' :: translateNewlines rest
      else '\n' :: translateNewlines (c2 :: rest)
    else c1 :: translateNewlines (c2 :: rest)

/-- All suffixes of a string, longest first (the string itself included,
ending with the empty suffix). -/
def strTails : List Char → List (List Char)
  | [] => [[]]
  | c :: cs => (c :: cs) :: strTails cs

/-- `fnmatch.fnmatch` glob matching on POSIX (no case folding): `*` matches
any character sequence (including path separators) — rendered as matching
the remaining pattern against some suffix — `?` matches any single
character, other characters literally.  Bracket character classes are not
used by this development and are not modelled. -/
def globMatch : List Char → List Char → Bool
  | [], s => s.isEmpty
  | '*' :: ps, s => (strTails s).any (fun s2 => globMatch ps s2)
  | '?' :: ps, s =>
    match s with
    | [] => false
    | _ :: cs2 => globMatch ps cs2
  | p :: ps, s =>
    match s with
    | [] => false
    | c :: cs2 => p = c && globMatch ps cs2

/-- `any(fnmatch.fnmatch(path, pattern) for pattern in patterns)`. -/
def anyMatch (patterns : List (List Char)) (path : List Char) : Bool :=
  patterns.any (fun pat => globMatch pat path)

/-- `os.path.join(p, name)` on POSIX for a non-absolute second component. -/
def joinPath (p name : List Char) : List Char :=
  p ++ '/' :: name

/-- `os.path.splitext(name)`'s extension part: everything from the last dot
on, unless every character before that dot is itself a dot (so `.bashrc`
has no extension).  Returns `[]` when there is no extension. -/
def pyExt (name : List Char) : List Char :=
  match name.reverse.span (fun c => c ≠ '.') with
  | (_, []) => []
  | (revTail, _ :: revStem) =>
    if revStem.any (fun c => c ≠ '.') then '.' :: revTail.reverse else []

/-- Contents of a file on disk: either UTF-8 decodable text (modelled by its
decoded character sequence) or bytes that fail UTF-8 decoding somewhere.
For the latter, `yielded` records the complete lines the buffered text-mode
line iterator produces before `UnicodeDecodeError` is raised: text I/O
decodes chunk by chunk, so lines wholly inside chunks that precede the bad
bytes are yielded first.  In reality `yielded` is determined by the bytes
and the reader's chunk size; it is empty whenever the first chunk already
fails — in particular for every file small enough to be read in one chunk.
A whole-file `read()` (the copier's path) is atomic and yields no text. -/
inductive Content where
  | text (s : List Char)
  | binary (bytes : List Nat) (yielded : List (List Char))
deriving DecidableEq

/-- An in-memory directory tree, the model over which `os.walk`,
`os.listdir` and the file operations run.  Files carry a modification time
so that metadata preservation by `shutil.copy2` can be stated. -/
inductive FSTree where
  | file (name : List Char) (data : Content) (mtime : Nat)
  | dir (name : List Char) (children : List FSTree)

/-- The entry's name as listed by `os.listdir`. -/
def FSTree.entryName : FSTree → List Char
  | .file name _ _ => name
  | .dir name _ => name

theorem sizeOf_lt_of_mem_children {c : FSTree} {name : List Char}
    {children : List FSTree} (h : c ∈ children) :
    sizeOf c < sizeOf (FSTree.dir name children) := by
  have h1 : sizeOf c < sizeOf children := List.sizeOf_lt_of_mem h
  simp only [FSTree.dir.sizeOf_spec]
  omega

/-! ### `get_file_types` (lines 81–89)

`os.walk(directory)` with in-place pruning of directories whose joined path
matches an ignored-folder pattern; each surviving file's extension is added
when non-empty and not ignored.  Note the folder patterns are only ever
tested against directories, never against files, and the extension test is
`if ext and ext not in ignored_extensions`. -/

mutual

def ftTypes (ignExt ignFld : List (List Char)) (p : List Char) :
    FSTree → Finset (List Char)
  | .file name _ _ =>
    let e := pyExt name
    if e ≠ [] ∧ e ∉ ignExt then {e} else ∅
  | .dir name children =>
    let p2 := joinPath p name
    if anyMatch ignFld p2 then ∅
    else ftTypesList ignExt ignFld p2 children

def ftTypesList (ignExt ignFld : List (List Char)) (p : List Char) :
    List FSTree → Finset (List Char)
  | [] => ∅
  | c :: rest =>
    ftTypes ignExt ignFld p c ∪ ftTypesList ignExt ignFld p rest

end

/-- `get_file_types(directory, ...)`: the set of extensions collected by the
walk rooted at path `rootPath` over tree `t` (the source then presents this
set as a sorted list; only the set content matters to the claims). -/
def get_file_types (rootPath : List Char) (t : FSTree)
    (ignExt ignFld : List (List Char)) : Finset (List Char) :=
  match t with
  | .file _ _ _ => ∅
  | .dir _ children => ftTypesList ignExt ignFld rootPath children

/-! ### `get_imported_libraries` (lines 91–108)

Walks every `.py` file (no pruning and no ignore sets at all), reading it
line by line; `import X...` and `from X... import ...` lines contribute the
first dotted segment of the named module.  The bare `except: pass` wraps the
whole per-file loop: a failure — an `IndexError` from a line with no second
token, or the `UnicodeDecodeError` the lazy buffered iteration raises when
it reaches undecodable bytes — abandons the rest of that file, keeping the
additions already made.  A file whose content fails UTF-8 decoding thus
contributes exactly the imports of the lines yielded before the failure
(nothing when the failure is in the first chunk). -/

def firstDotSeg (tok : List Char) : List Char :=
  (pySplitChar '.' tok).headD []

def processLine (line : List Char) : Except Unit (Option (List Char)) :=
  if pyStartsWith line ("import ".data) || pyStartsWith line ("from ".data) then
    match pySplitWs line with
    | [] => .error ()
    | p0 :: rest =>
      if p0 = "import".data then
        match rest with
        | tok :: _ => .ok (some (firstDotSeg tok))
        | [] => .error ()
      else if p0 = "from".data then
        match rest with
        | tok :: _ => .ok (some (firstDotSeg tok))
        | [] => .error ()
      else .ok none
  else .ok none

/-- Process one file's lines in order, stopping at the first in-loop error
(swallowed by the bare `except`); returns the module names added. -/
def processFile : List (List Char) → List (List Char)
  | [] => []
  | l :: rest =>
    match processLine l with
    | .error _ => []
    | .ok none => processFile rest
    | .ok (some lib) => lib :: processFile rest

/-- The contribution of a single directory entry that is a file. -/
def fileImports (name : List Char) (data : Content) : Finset (List Char) :=
  if pyEndsWith name (".py".data) then
    match data with
    | .text s => (processFile (pyLines (translateNewlines s))).toFinset
    | .binary _ yielded => (processFile yielded).toFinset
  else ∅

mutual

def impTypes : FSTree → Finset (List Char)
  | .file name data _ => fileImports name data
  | .dir _ children => impTypesList children

def impTypesList : List FSTree → Finset (List Char)
  | [] => ∅
  | c :: rest => impTypes c ∪ impTypesList rest

end

/-- `get_imported_libraries(directory)`: note it takes no ignore sets. -/
def get_imported_libraries (t : FSTree) : Finset (List Char) :=
  match t with
  | .file _ _ _ => ∅
  | .dir _ children => impTypesList children

/-! ### `write_codemap` (lines 110–123)

Renders `sorted(os.listdir(directory))`, skipping any entry (file or
directory) whose joined path matches an ignored-folder pattern; directories
are rendered as `name/` and recursed into one indent level deeper; files are
rendered unless their extension is in the ignored-extensions set. -/

/-- Python string `<=`: lexicographic comparison by code point. -/
def strLe : List Char → List Char → Bool
  | [], _ => true
  | _ :: _, [] => false
  | a :: as, b :: bs => if a = b then strLe as bs else decide (a < b)

def insertByName (x : FSTree) : List FSTree → List FSTree
  | [] => [x]
  | y :: ys =>
    if strLe x.entryName y.entryName then x :: y :: ys
    else y :: insertByName x ys

/-- `sorted(items)` over the entries of one directory (entry names within a
directory are distinct, so any sort by name yields Python's order). -/
def sortItems : List FSTree → List FSTree
  | [] => []
  | x :: xs => insertByName x (sortItems xs)

theorem mem_insertByName {y x : FSTree} : ∀ {l : List FSTree},
    y ∈ insertByName x l → y = x ∨ y ∈ l := by
  intro l
  induction l with
  | nil => simp [insertByName]
  | cons z zs ih =>
    simp only [insertByName]
    split
    · intro h
      rcases List.mem_cons.mp h with h | h
      · exact Or.inl h
      · exact Or.inr h
    · intro h
      rcases List.mem_cons.mp h with h | h
      · exact Or.inr (by simp [h])
      · rcases ih h with h2 | h2
        · exact Or.inl h2
        · exact Or.inr (List.mem_cons_of_mem _ h2)

theorem mem_sortItems {y : FSTree} : ∀ {l : List FSTree},
    y ∈ sortItems l → y ∈ l := by
  intro l
  induction l with
  | nil => simp [sortItems]
  | cons z zs ih =>
    simp only [sortItems]
    intro h
    rcases mem_insertByName h with h2 | h2
    · simp [h2]
    · exact List.mem_cons_of_mem _ (ih h2)

/-- The indentation guide written before an entry at nesting level `lvl`:
`"│   " * indent_level + "├── "`. -/
def indentOf (lvl : Nat) : List Char :=
  (List.replicate lvl ("│   ".data)).flatten ++ "├── ".data

/-- The codemap lines produced for one directory entry `t` listed inside the
directory whose path is `p`, at indentation level `lvl`. -/
def cmLines (ignExt ignFld : List (List Char)) (lvl : Nat) (p : List Char) :
    FSTree → List (List Char)
  | .file name _ _ =>
    if anyMatch ignFld (joinPath p name) then []
    else if pyExt name ∉ ignExt then [indentOf lvl ++ name ++ ['\n']] else []
  | .dir name children =>
    let ip := joinPath p name
    if anyMatch ignFld ip then []
    else
      (indentOf lvl ++ name ++ "/\n".data) ::
        ((sortItems children).attach.map
          (fun ⟨c, _⟩ => cmLines ignExt ignFld (lvl + 1) ip c)).flatten
termination_by t => sizeOf t
decreasing_by
  exact sizeOf_lt_of_mem_children (mem_sortItems (by assumption))

/-- `write_codemap(file, directory, ...)`: the list of lines written for the
tree rooted at path `rootPath` (the surrounding `main` separately appends an
"Included Libraries" section; `write_codemap` itself writes only the tree). -/
def write_codemap (rootPath : List Char) (t : FSTree)
    (ignExt ignFld : List (List Char)) : List (List Char) :=
  match t with
  | .file _ _ _ => []
  | .dir _ children =>
    ((sortItems children).map (cmLines ignExt ignFld 0 rootPath)).flatten

/-! ### `copy_files` (lines 125–146)

Walks `src` with the same directory pruning as `get_file_types`; copies each
file whose extension is not ignored and is among the selected `file_types`,
into the flat `dest` directory under the flattened relative name.  UTF-8
text is rewritten with a timestamp header; undecodable content falls back to
`shutil.copy2` (byte-identical, metadata preserved). -/

/-- The timestamp the copy loop generates per file:
`datetime.now().strftime("# file updated %Y.%m.%d_%H:%M:%S\n")`. -/
structure DateTime6 where
  year : Nat
  month : Nat
  day : Nat
  hour : Nat
  minute : Nat
  second : Nat
deriving DecidableEq

/-- One decimal digit character (the low digit of `d`). -/
def digitChar (d : Nat) : Char :=
  match d % 10 with
  | 0 => '0' | 1 => '1' | 2 => '2' | 3 => '3' | 4 => '4'
  | 5 => '5' | 6 => '6' | 7 => '7' | 8 => '8' | _ => '9'

/-- Zero-padded two-digit field of `strftime`. -/
def pad2 (n : Nat) : List Char :=
  [digitChar (n / 10), digitChar n]

/-- Zero-padded four-digit `%Y` field of `strftime`. -/
def pad4 (n : Nat) : List Char :=
  [digitChar (n / 1000), digitChar (n / 100), digitChar (n / 10), digitChar n]

/-- `strftime("%Y.%m.%d_%H:%M:%S")`. -/
def fmtTimestamp (dt : DateTime6) : List Char :=
  pad4 dt.year ++ '.' :: pad2 dt.month ++ '.' :: pad2 dt.day ++
    '_' :: pad2 dt.hour ++ ':' :: pad2 dt.minute ++ ':' :: pad2 dt.second

/-- The full header line `"# file updated %Y.%m.%d_%H:%M:%S\n"`. -/
def tsLine (dt : DateTime6) : List Char :=
  "# file updated ".data ++ fmtTimestamp dt ++ ['\n']

/-- The copy of one file's content and resulting metadata: the text path
reads with universal newlines and writes header plus content as a new file
(modification time `now`); the `UnicodeDecodeError` fallback is
`shutil.copy2`, byte-identical and metadata-preserving. -/
def copyOne (dt : DateTime6) (now : Nat) (data : Content) (srcMtime : Nat) :
    Content × Nat :=
  match data with
  | .text s => (.text (tsLine dt ++ translateNewlines s), now)
  | .binary b y => (.binary b y, srcMtime)

/-- `relative_path.replace(os.path.sep, '-')` with `os.path.sep = '/'`. -/
def replaceSepDash (s : List Char) : List Char :=
  s.map (fun c => if c = '/' then '-' else c)

/-- The relative path string `os.path.relpath(s, base)` of a file reached by
walking down components `parts` from the base directory. -/
def relPathStr : List (List Char) → List Char
  | [] => []
  | p0 :: rest => p0 ++ (rest.map (fun q => '/' :: q)).flatten

/-- The flat destination filename of a copied file. -/
def flattenName (parts : List (List Char)) : List Char :=
  replaceSepDash (relPathStr parts)

/-- One copied file as produced by `copy_files`. -/
structure CopyEntry where
  srcPath : List Char
  ext : List Char
  destName : List Char
  written : Content
  mtime : Nat
deriving DecidableEq

mutual

def cpEntries (fileTypes ignExt ignFld : List (List Char)) (dt : DateTime6)
    (now : Nat) (p : List Char) (rel : List (List Char)) :
    FSTree → List CopyEntry
  | .file name data mtime =>
    let ext := pyExt name
    if ext ∈ ignExt ∨ ext ∉ fileTypes then []
    else
      let cm := copyOne dt now data mtime
      [{ srcPath := joinPath p name
         ext := ext
         destName := flattenName (rel ++ [name])
         written := cm.1
         mtime := cm.2 }]
  | .dir name children =>
    let p2 := joinPath p name
    if anyMatch ignFld p2 then []
    else cpEntriesList fileTypes ignExt ignFld dt now p2 (rel ++ [name]) children

def cpEntriesList (fileTypes ignExt ignFld : List (List Char)) (dt : DateTime6)
    (now : Nat) (p : List Char) (rel : List (List Char)) :
    List FSTree → List CopyEntry
  | [] => []
  | c :: rest =>
    cpEntries fileTypes ignExt ignFld dt now p rel c ++
      cpEntriesList fileTypes ignExt ignFld dt now p rel rest

end

/-- `copy_files(src, dest, base_directory, ...)` with `src = base_directory`
as called from `main`: the list of files written into the flat destination. -/
def copy_files (rootPath : List Char) (t : FSTree)
    (fileTypes ignExt ignFld : List (List Char)) (dt : DateTime6) (now : Nat) :
    List CopyEntry :=
  match t with
  | .file _ _ _ => []
  | .dir _ children =>
    cpEntriesList fileTypes ignExt ignFld dt now rootPath [] children

/-! ### `load_config` / `save_config` (lines 37–79)

JSON values as produced by `json.loads`.  Numbers, booleans and `null` are
collapsed into an opaque `prim` constructor (they are hashable and
non-iterable, which is all the code observes about them). -/

inductive Json where
  | str (s : List Char)
  | prim (n : Nat)
  | arr (elems : List Json)
  | obj (fields : List (List Char × Json))

/-- A hashable Python value, as stored in a Python `set`. -/
inductive PyVal where
  | str (s : List Char)
  | prim (n : Nat)
deriving DecidableEq

def pyValToJson : PyVal → Json
  | .str s => .str s
  | .prim n => .prim n

/-- Hashing a value for `set` insertion: lists and dicts are unhashable
(`TypeError`). -/
def toHashable : Json → Except Unit PyVal
  | .str s => .ok (.str s)
  | .prim n => .ok (.prim n)
  | .arr _ => .error ()
  | .obj _ => .error ()

/-- Python `set(x)`: a string yields its characters, a list its (hashable)
elements, a dict its keys; non-iterables raise `TypeError`.  The set is
modelled as a duplicate-free list; only membership is meaningful. -/
def pySetOf : Json → Except Unit (List PyVal)
  | .str s => .ok ((s.map (fun c => PyVal.str [c])).dedup)
  | .prim _ => .error ()
  | .arr l => (l.mapM toHashable).map List.dedup
  | .obj kvs => .ok ((kvs.map (fun kv => PyVal.str kv.1)).dedup)

/-- Python set union `a | b` on the list model. -/
def pyUnion (a b : List PyVal) : List PyVal :=
  (a ++ b).dedup

/-- Value of the last binding of key `k` (later JSON keys win in
`json.loads`, and `dict.get` sees the final binding). -/
def lookupLast (kvs : List (List Char × Json)) (k : List Char) : Option Json :=
  (kvs.filterMap (fun kv => if kv.1 = k then some kv.2 else none)).getLast?

/-- `config.get(k, dflt)`: on a non-dict this is an uncaught
`AttributeError`. -/
def jGet (config : Json) (k : List Char) (dflt : Json) : Except Unit Json :=
  match config with
  | .obj kvs => .ok ((lookupLast kvs k).getD dflt)
  | _ => .error ()

def extKey : List Char := "ignored_extensions".data

def fldKey : List Char := "ignored_folders".data

/-- The outcome of reading and JSON-parsing `config.json` in `load_config`:
the file may be absent, present but stripped-empty, present with content
that raises `json.JSONDecodeError`, or successfully parsed.  The first
three branches all continue with `config = {}`. -/
inductive ConfigRead where
  | missing
  | emptyContent
  | malformed
  | parsed (j : Json)

/-- Line-by-line parse of `ignored_patterns.txt`: stripped lines that are
non-empty and not comments are extension rules when they start with `.` and
folder rules otherwise.  Returns (extension rules, folder rules). -/
def parsePatterns : List (List Char) → List (List Char) × List (List Char)
  | [] => ([], [])
  | l :: rest =>
    let prev := parsePatterns rest
    let s := pyStrip l
    if s ≠ [] ∧ ¬ pyStartsWith s ("#".data) then
      if pyStartsWith s (".".data) then (s :: prev.1, prev.2)
      else (prev.1, s :: prev.2)
    else prev

/-- The configuration record `load_config` returns: the two ignore sets
plus the remaining keys of the loaded JSON object. -/
structure LoadedConfig where
  ignored_extensions : List PyVal
  ignored_folders : List PyVal
  others : List (List Char × Json)

/-- `load_config()`: `patternsFile = none` models an absent
`ignored_patterns.txt`.  An `error` result models an uncaught Python
exception escaping `load_config`. -/
def load_config (cr : ConfigRead) (patternsFile : Option (List (List Char))) :
    Except Unit LoadedConfig :=
  let config : Json :=
    match cr with
    | .parsed j => j
    | _ => .obj []
  let pats := parsePatterns (patternsFile.getD [])
  do
    let ev ← jGet config extKey (.arr [])
    let es ← pySetOf ev
    let fv ← jGet config fldKey (.arr [])
    let fs ← pySetOf fv
    let others :=
      match config with
      | .obj kvs => kvs.filter (fun kv => !(kv.1 == extKey) && !(kv.1 == fldKey))
      | _ => []
    .ok
      { ignored_extensions := pyUnion es (pats.1.map PyVal.str)
        ignored_folders := pyUnion fs (pats.2.map PyVal.str)
        others := others }

/-- `save_config(config)`: the JSON object written to `config.json` —
set values are serialized as lists, other keys passed through. -/
def save_config (c : LoadedConfig) : Json :=
  .obj (c.others ++
    [(extKey, .arr (c.ignored_extensions.map pyValToJson)),
     (fldKey, .arr (c.ignored_folders.map pyValToJson))])

def isErr : Except Unit LoadedConfig → Bool
  | .error _ => true
  | .ok _ => false

/-- Whether a JSON value may be put into a Python `set`. -/
def isHashable : Json → Bool
  | .str _ => true
  | .prim _ => true
  | _ => false

/-- The `PyVal` of a hashable JSON value. -/
def hashOf : Json → Option PyVal
  | .str s => some (.str s)
  | .prim n => some (.prim n)
  | _ => none

/-- A JSON value on which `set(...)` lands in the array-of-hashables
regime: a list whose elements are all strings or primitives. -/
def okSetVal : Json → Bool
  | .arr l => l.all isHashable
  | _ => false

/-- The hashable elements listed by an array value (used to state what the
configured ignore sets contain). -/
def hashListOf : Json → List PyVal
  | .arr l => l.filterMap hashOf
  | _ => []

/-- The raw JSON value `config.get(k, [])` yields for key `k`. -/
def cfgRaw (cr : ConfigRead) (k : List Char) : Json :=
  match cr with
  | .parsed (.obj kvs) => (lookupLast kvs k).getD (.arr [])
  | _ => .arr []

/-- The ignore values listed for key `k` in the configuration file. -/
def cfgVals (cr : ConfigRead) (k : List Char) : List PyVal :=
  hashListOf (cfgRaw cr k)

/-- The non-ignore keys `load_config` carries through. -/
def cfgOthers : ConfigRead → List (List Char × Json)
  | .parsed (.obj kvs) =>
    kvs.filter (fun kv => !(kv.1 == extKey) && !(kv.1 == fldKey))
  | _ => []

/-- The reads of `config.json` on which `load_config` is total: anything
that does not parse to a JSON value, or a JSON object whose ignore-key
values (where present) are arrays of strings/primitives. -/
def goodConfig : ConfigRead → Bool
  | .parsed (.obj kvs) =>
    okSetVal ((lookupLast kvs extKey).getD (.arr [])) &&
      okSetVal ((lookupLast kvs fldKey).getD (.arr []))
  | .parsed _ => false
  | _ => true

/-- The folders set of a `load_config` result (empty on error), used to
state round-trip facts without comparing whole records. -/
def loadedFolders : Except Unit LoadedConfig → List PyVal
  | .error _ => []
  | .ok c => c.ignored_folders

/-- The extensions set of a `load_config` result (empty on error). -/
def loadedExtensions : Except Unit LoadedConfig → List PyVal
  | .error _ => []
  | .ok c => c.ignored_extensions

/-! ### `get_library_version` / `get_library_info` (lines 148–173) and the
report loop of `main` (lines 237–243)

The installed-Python environment is an oracle: `distVersion` is
`pkg_resources.get_distribution(lib).version` (`none` =
`DistributionNotFound`); `importAttr lib = none` models `ImportError`,
`some a` a successful import with `a` the module's `__version__` attribute
if present; `specOrigin lib = none` models `find_spec` returning `None`,
`some o` a spec whose `origin` is `o`; `dirTree d` is the listing of
directory `d`. -/

structure PyEnv where
  distVersion : List Char → Option (List Char)
  importAttr : List Char → Option (Option (List Char))
  specOrigin : List Char → Option (Option (List Char))
  dirTree : List Char → List FSTree

/-- `os.path.dirname` on POSIX. -/
def dirname (p : List Char) : List Char :=
  match p.reverse.span (fun c => c ≠ '/') with
  | (_, []) => []
  | (_, _ :: revDir) => revDir.reverse

/-- `os.path.getsize` of a file: byte length of its content. -/
def contentSize : Content → Nat
  | .text s => (s.map Char.utf8Size).sum
  | .binary b _ => b.length

mutual

def countFiles : FSTree → Nat
  | .file _ _ _ => 1
  | .dir _ children => countFilesList children

def countFilesList : List FSTree → Nat
  | [] => 0
  | c :: rest => countFiles c + countFilesList rest

end

mutual

def sumSizes : FSTree → Nat
  | .file _ data _ => contentSize data
  | .dir _ children => sumSizesList children

def sumSizesList : List FSTree → Nat
  | [] => 0
  | c :: rest => sumSizes c + sumSizesList rest

end

def get_library_version (env : PyEnv) (lib : List Char) : List Char :=
  match env.distVersion lib with
  | some v => v
  | none =>
    match env.importAttr lib with
    | some (some v) => v
    | some none => "Unknown".data
    | none => "Unknown".data

structure LibraryInfo where
  path : List Char
  file_count : Nat
  total_size : Nat
deriving DecidableEq

def get_library_info (env : PyEnv) (lib : List Char) : Option LibraryInfo :=
  match env.specOrigin lib with
  | none => none
  | some none => none
  | some (some origin) =>
    let d := dirname origin
    let children := env.dirTree d
    some
      { path := d
        file_count := countFilesList children
        total_size := sumSizesList children }

/-- Report filename `f"{library}(v{version}){timestamp}.txt"`. -/
def libFileName (lib ver stamp : List Char) : List Char :=
  lib ++ "(v".data ++ ver ++ [')'] ++ stamp ++ ".txt".data

/-- The report files the loop at the end of `main` writes: one per selected
library whose `get_library_info` is non-`None`; libraries with no resolvable
spec/origin are skipped without failing. -/
def writeLibraryReports (env : PyEnv) (libs : List (List Char))
    (stamp : List Char) : List (List Char × LibraryInfo) :=
  libs.filterMap (fun lib =>
    match get_library_info env lib with
    | none => none
    | some info =>
      some (libFileName lib (get_library_version env lib) stamp, info))

/-! ### File-type selection in `main` (lines 199–203)

`[all_file_types[int(x.strip()) - 1] for x in file_types_input.split(',')]`
for non-empty input. -/

/-- Decimal digit-run value; error on empty or non-digit. -/
def digitsVal (ds : List Char) : Except Unit Nat :=
  if ds = [] then .error ()
  else
    ds.foldlM
      (fun acc c =>
        if c.isDigit then .ok (acc * 10 + (c.toNat - 48)) else .error ())
      0

/-- Python `int(s)` for an already-stripped string: optional sign, digits;
anything else raises `ValueError`. -/
def pyInt (s : List Char) : Except Unit Int :=
  match s with
  | '-' :: ds => (digitsVal ds).map (fun n => -(n : Int))
  | '+' :: ds => (digitsVal ds).map (fun n => (n : Int))
  | ds => (digitsVal ds).map (fun n => (n : Int))

/-- Python list indexing `l[i]`: negative indices count from the end;
out-of-range raises `IndexError`. -/
def pyIndex {α : Type} (l : List α) (i : Int) : Except Unit α :=
  let k : Int := if i < 0 then (l.length : Int) + i else i
  if h : 0 ≤ k ∧ k.toNat < l.length then .ok (l.get ⟨k.toNat, h.2⟩)
  else .error ()

/-- The list comprehension `main` evaluates for a non-empty file-type
selection input. -/
def selectFileTypes (inp : List Char) (allTypes : List (List Char)) :
    Except Unit (List (List Char)) :=
  (pySplitChar ',' inp).mapM (fun tok => do
    let n ← pyInt (pyStrip tok)
    pyIndex allTypes (n - 1))

/-! ### Concrete structures used by witnesses and counterexamples -/

/-- An environment in which nothing resolves. -/
def envNone : PyEnv :=
  ⟨fun _ => none, fun _ => none, fun _ => none, fun _ => []⟩

/-- The tree of the C9 witness: a single Python file whose only line is a
bare-dot relative import. -/
def treeC9 : FSTree :=
  .dir "r".data [.file "a.py".data (.text "from . import x\n".data) 0]

/-- The tree of the C8 counterexample: a `.py` file whose bytes start with
a complete `import os` line well inside the first read chunk, continue with
enough padding to span a chunk boundary, and then fail UTF-8 decoding
(`0xff`): the buffered line iterator yields `import os` before raising, so
`yielded = ["import os\n"]` (the padding forms an unterminated line that is
never yielded). -/
def treeC8cex : FSTree :=
  .dir "r".data
    [.file "a.py".data
      (.binary
        ("import os\n".data.map Char.toNat ++ List.replicate 8192 32 ++ [255])
        ["import os\n".data])
      0]

/-- The tree of the C9 counterexample: the same relative-import line, but
preceded by a bare `import ` line that raises `IndexError` and aborts the
rest of the file. -/
def treeC9cex : FSTree :=
  .dir "r".data
    [.file "a.py".data (.text "import \nfrom . import x\n".data) 0]

/-- The config read of the C6 witness: an object with one ignore key and an
unrelated key. -/
def crC6 : ConfigRead :=
  .parsed (.obj
    [(extKey, .arr [.str ".py".data]),
     ("last_directory".data, .str "/x".data)])

/-- The configuration record of the C4 witness. -/
def cfgC4w : LoadedConfig :=
  { ignored_extensions := [.str ".py".data, .str ".txt".data]
    ignored_folders := [.str "*build*".data]
    others := [("last_directory".data, .str "/x".data)] }

/-- The configuration record of the C4 counterexample: empty ignore sets. -/
def cfgC4 : LoadedConfig :=
  { ignored_extensions := [], ignored_folders := [], others := [] }

/-- The tree of the C1 counterexample: an ignored folder holding a Python
file, and a top-level file whose path matches an ignored-folder pattern. -/
def treeC1 : FSTree :=
  .dir "r".data
    [.dir "build".data [.file "a.py".data (.text "import os\n".data) 0],
     .file "secret.py".data (.text "x = 1\n".data) 0]

/-- The ignored-folder patterns of the C1 counterexample. -/
def ignFldC1 : List (List Char) := ["*build".data, "*secret.py".data]

/-! ## Helper lemmas -/

theorem translateNewlines_eq_self : ∀ (s : List Char), '\r' ∉ s →
    translateNewlines s = s
  | [], _ => rfl
  | [c], h => by
    have hc : ¬ c = '\r' := by
      intro e
      exact h (by simp [e])
    simp [translateNewlines, hc]
  | c1 :: c2 :: rest, h => by
    have h1 : ¬ c1 = '\r' := by
      intro e
      exact h (by simp [e])
    have h2 : '\r' ∉ c2 :: rest := fun m => h (List.mem_cons_of_mem _ m)
    simp [translateNewlines, h1, translateNewlines_eq_self (c2 :: rest) h2]

theorem digitChar_ne_newline (d : Nat) : digitChar d ≠ '\n' := by
  have h10 : d % 10 = 0 ∨ d % 10 = 1 ∨ d % 10 = 2 ∨ d % 10 = 3 ∨ d % 10 = 4 ∨
      d % 10 = 5 ∨ d % 10 = 6 ∨ d % 10 = 7 ∨ d % 10 = 8 ∨ d % 10 = 9 := by
    omega
  unfold digitChar
  rcases h10 with h | h | h | h | h | h | h | h | h | h <;> rw [h] <;> decide

theorem newline_not_mem_pad2 (n : Nat) : '\n' ∉ pad2 n := by
  intro h
  rcases List.mem_cons.mp h with h1 | h1
  · exact digitChar_ne_newline _ h1.symm
  rcases List.mem_cons.mp h1 with h2 | h2
  · exact digitChar_ne_newline _ h2.symm
  · simp at h2

theorem newline_not_mem_pad4 (n : Nat) : '\n' ∉ pad4 n := by
  intro h
  simp only [pad4, List.mem_cons, List.not_mem_nil, or_false] at h
  rcases h with h | h | h | h <;> exact digitChar_ne_newline _ h.symm

theorem newline_not_mem_fmt (dt : DateTime6) : '\n' ∉ fmtTimestamp dt := by
  intro h
  simp only [fmtTimestamp, List.mem_append, List.mem_cons] at h
  casesm* _ ∨ _
  all_goals
    first
      | exact newline_not_mem_pad2 _ (by assumption)
      | exact newline_not_mem_pad4 _ (by assumption)
      | exact absurd (by assumption : '\n' = '.') (by decide)
      | exact absurd (by assumption : '\n' = '_') (by decide)
      | exact absurd (by assumption : '\n' = ':') (by decide)

/-! ## Claims -/

/-- Claim C3 (confirmed): for an input file whose content is not UTF-8
decodable, the collector writes a byte-identical copy via `shutil.copy2`,
preserving the source's metadata (modification time) and prepending no
timestamp header; in the walk, such a selected file produces exactly that
verbatim entry. -/
theorem claim_C3 (dt : DateTime6) (now : Nat) (b : List Nat)
    (y : List (List Char)) (m : Nat)
    (fileTypes ignExt ignFld : List (List Char)) (p : List Char)
    (rel : List (List Char)) (name : List Char)
    (hsel : ¬ (pyExt name ∈ ignExt ∨ pyExt name ∉ fileTypes)) :
    copyOne dt now (.binary b y) m = (.binary b y, m) ∧
    cpEntries fileTypes ignExt ignFld dt now p rel
        (.file name (.binary b y) m) =
      [{ srcPath := joinPath p name
         ext := pyExt name
         destName := flattenName (rel ++ [name])
         written := .binary b y
         mtime := m }] := by
  constructor
  · rfl
  · simp [cpEntries, hsel, copyOne]

/-- Claim C3 witness: a concrete undecodable file is copied verbatim. -/
theorem claim_C3_witness :
    ¬ (pyExt "a.bin".data ∈ ([] : List (List Char)) ∨
        pyExt "a.bin".data ∉ [".bin".data]) ∧
    cpEntries [".bin".data] [] [] ⟨2024, 1, 2, 3, 4, 5⟩ 77 "r".data []
        (.file "a.bin".data (.binary [0, 159, 146, 150] []) 42) =
      [{ srcPath := joinPath "r".data "a.bin".data
         ext := pyExt "a.bin".data
         destName := flattenName ["a.bin".data]
         written := .binary [0, 159, 146, 150] []
         mtime := 42 }] :=
  ⟨by decide,
    (claim_C3 ⟨2024, 1, 2, 3, 4, 5⟩ 77 [0, 159, 146, 150] [] 42 [".bin".data]
      [] [] "r".data [] "a.bin".data (by decide)).2⟩

/-- Claim C2 (amended): for a UTF-8-decodable input file the collector
writes exactly one timestamp comment line (a single trailing newline, none
inside the header) followed by the source content as transformed by
Python's universal-newline text read; when the content contains no carriage
return characters this is the exact original content, unchanged. -/
theorem claim_C2 (dt : DateTime6) (now : Nat) (s : List Char) (m : Nat)
    (h : '\r' ∉ s) :
    copyOne dt now (.text s) m = (.text (tsLine dt ++ s), now) ∧
    tsLine dt = ("# file updated ".data ++ fmtTimestamp dt) ++ ['\n'] ∧
    '\n' ∉ "# file updated ".data ++ fmtTimestamp dt := by
  refine ⟨?_, ?_, ?_⟩
  · simp [copyOne, translateNewlines_eq_self s h]
  · simp [tsLine]
  · intro hm
    rcases List.mem_append.mp hm with hm | hm
    · simp at hm
    · exact newline_not_mem_fmt dt hm

/-- Claim C2 witness: a concrete CR-free text file is copied as header plus
unchanged content. -/
theorem claim_C2_witness :
    '\r' ∉ "x = 1\n".data ∧
    copyOne ⟨2024, 1, 2, 3, 4, 5⟩ 9 (.text "x = 1\n".data) 0 =
      (.text (tsLine ⟨2024, 1, 2, 3, 4, 5⟩ ++ "x = 1\n".data), 9) :=
  ⟨by decide, (claim_C2 ⟨2024, 1, 2, 3, 4, 5⟩ 9 "x = 1\n".data 0 (by decide)).1⟩

/-- Claim C2 counterexample: for a UTF-8 file containing `\r\n`, the text
written is not the header followed by the exact original content — the
universal-newline read turns `\r\n` into `\n` before writing. -/
theorem claim_C2_counterexample :
    copyOne ⟨2024, 1, 2, 3, 4, 5⟩ 9 (.text "a\r\nb".data) 0 ≠
      (.text (tsLine ⟨2024, 1, 2, 3, 4, 5⟩ ++ "a\r\nb".data), 9) := by
  decide

theorem replaceSepDash_inj : ∀ (p1 p2 : List Char), '-' ∉ p1 → '-' ∉ p2 →
    replaceSepDash p1 = replaceSepDash p2 → p1 = p2
  | [], [], _, _, _ => rfl
  | [], _ :: _, _, _, h => by simp [replaceSepDash] at h
  | _ :: _, [], _, _, h => by simp [replaceSepDash] at h
  | c1 :: t1, c2 :: t2, h1, h2, h => by
    simp only [replaceSepDash, List.map_cons, List.cons.injEq] at h
    obtain ⟨hh, ht⟩ := h
    have h1h : ¬ c1 = '-' := by
      intro e
      exact h1 (by simp [e])
    have h2h : ¬ c2 = '-' := by
      intro e
      exact h2 (by simp [e])
    have h1t : '-' ∉ t1 := fun m => h1 (List.mem_cons_of_mem _ m)
    have h2t : '-' ∉ t2 := fun m => h2 (List.mem_cons_of_mem _ m)
    have hc : c1 = c2 := by
      by_cases e1 : c1 = '/' <;> by_cases e2 : c2 = '/' <;>
        simp only [e1, e2, if_pos, if_neg, reduceIte] at hh
      · rw [e1, e2]
      · exact absurd hh.symm h2h
      · exact absurd hh h1h
      · exact hh
    have hts : t1 = t2 :=
      replaceSepDash_inj t1 t2 h1t h2t
        (by simpa [replaceSepDash] using ht)
    rw [hc, hts]

theorem dash_not_mem_relPathStr (parts : List (List Char)) :
    '-' ∉ relPathStr parts ↔ ∀ c ∈ parts, '-' ∉ c := by
  cases parts with
  | nil => simp [relPathStr]
  | cons p0 rest =>
    simp only [relPathStr, List.mem_append, List.mem_flatten, List.mem_map]
    constructor
    · intro h c hc hm
      rcases List.mem_cons.mp hc with e | e
      · exact h (Or.inl (e ▸ hm))
      · exact h (Or.inr ⟨'/' :: c, ⟨c, e, rfl⟩, List.mem_cons_of_mem _ hm⟩)
    · intro h hmem
      rcases hmem with hm | ⟨l2, ⟨q, hq, he⟩, hm⟩
      · exact h p0 (List.mem_cons_self _ _) hm
      · rw [← he] at hm
        rcases List.mem_cons.mp hm with e | e
        · exact absurd e (by decide)
        · exact h q (List.mem_cons_of_mem _ hq) e

/-- Claim C5 (confirmed): flattening (replacing `/` by `-` in the relative
path) is injective on paths that contain no `-`; and a relative path string
is `-`-free exactly when none of its components contains `-`.  Hence two
distinct such relative paths never collide in the flat output directory. -/
theorem claim_C5 (p1 p2 : List Char) (h1 : '-' ∉ p1) (h2 : '-' ∉ p2)
    (hne : p1 ≠ p2) :
    replaceSepDash p1 ≠ replaceSepDash p2 ∧
    (∀ parts : List (List Char),
      ('-' ∉ relPathStr parts ↔ ∀ c ∈ parts, '-' ∉ c)) := by
  constructor
  · intro he
    exact hne (replaceSepDash_inj p1 p2 h1 h2 he)
  · exact dash_not_mem_relPathStr

/-- Claim C5 witness: two concrete distinct dash-free relative paths get
distinct flattened names. -/
theorem claim_C5_witness :
    '-' ∉ "src/a.py".data ∧ '-' ∉ "src/b/a.py".data ∧
    "src/a.py".data ≠ "src/b/a.py".data ∧
    replaceSepDash "src/a.py".data ≠ replaceSepDash "src/b/a.py".data :=
  ⟨by decide, by decide, by decide,
    (claim_C5 "src/a.py".data "src/b/a.py".data (by decide) (by decide)
      (by decide)).1⟩

/-- Claim C8 (amended): a source file that fails UTF-8 decoding during
the import scan contributes exactly the imports of the complete lines the
buffered iteration yields before the failure is swallowed — in particular
nothing when the failure lies in the first decoded chunk (empty yield,
e.g. any file read in one chunk) — and the scan continues over the
remaining files without failing. -/
theorem claim_C8 :
    (∀ (name : List Char) (bytes : List Nat) (m : Nat),
      impTypes (.file name (.binary bytes []) m) = ∅) ∧
    (∀ (name : List Char) (bytes : List Nat) (yielded : List (List Char))
        (m : Nat),
      pyEndsWith name (".py".data) = true →
      impTypes (.file name (.binary bytes yielded) m) =
        (processFile yielded).toFinset) ∧
    (∀ (dname name : List Char) (bytes : List Nat)
        (yielded : List (List Char)) (m : Nat) (children : List FSTree),
      get_imported_libraries
          (.dir dname (.file name (.binary bytes yielded) m :: children)) =
        fileImports name (.binary bytes yielded) ∪
          get_imported_libraries (.dir dname children)) := by
  refine ⟨?_, ?_, ?_⟩
  · intro name bytes m
    simp [impTypes, fileImports, processFile]
  · intro name bytes yielded m h
    simp [impTypes, fileImports, h]
  · intro dname name bytes yielded m children
    simp [get_imported_libraries, impTypesList, impTypes]

/-- Claim C8 witness: a decode-failing `.py` file with one yielded
`import os` line contributes exactly that line's import. -/
theorem claim_C8_witness :
    pyEndsWith "a.py".data (".py".data) = true ∧
    impTypes (.file "a.py".data (.binary [255] ["import os\n".data]) 0) =
      (processFile ["import os\n".data]).toFinset :=
  ⟨by decide,
    claim_C8.2.1 "a.py".data [255] ["import os\n".data] 0 (by decide)⟩

/-- Claim C8 counterexample: a `.py` file whose bytes hold a complete
`import os` line in the first read chunk and invalid UTF-8 in a later one
contributes `os` to the library set before the swallowed
`UnicodeDecodeError` ends its scan — a decode-failing file does not always
contribute nothing, refuting the claim as stated. -/
theorem claim_C8_counterexample :
    "os".data ∈ get_imported_libraries treeC8cex ∧
    get_imported_libraries treeC8cex = {"os".data} := by
  refine ⟨?_, by decide⟩
  decide

theorem pyIndex_neg_one {α : Type} (l : List α) (h : l ≠ []) :
    pyIndex l (-1) = .ok (l.getLast h) := by
  have hp : 0 < l.length := List.length_pos.mpr h
  have hcond : (0 ≤ (l.length : Int) + (-1)) ∧
      ((l.length : Int) + (-1)).toNat < l.length := by
    constructor <;> omega
  simp only [pyIndex, if_pos (show (-1 : Int) < 0 by norm_num)]
  rw [dif_pos hcond]
  have hfin : (⟨((l.length : Int) + (-1)).toNat, hcond.2⟩ : Fin l.length) =
      ⟨l.length - 1, by omega⟩ :=
    Fin.ext (show ((l.length : Int) + (-1)).toNat = l.length - 1 by omega)
  rw [hfin, List.getLast_eq_get l h]

/-- Claim C10 (confirmed): with a non-empty discovered file-type list, the
selection input `0` raises no out-of-range error: `int("0") - 1 = -1`
indexes from the end and silently selects the last entry. -/
theorem claim_C10 (allTypes : List (List Char)) (h : allTypes ≠ []) :
    selectFileTypes "0".data allTypes = .ok [allTypes.getLast h] := by
  have step : selectFileTypes "0".data allTypes =
      (pyIndex allTypes (-1)).bind (fun a => .ok [a]) := rfl
  rw [step, pyIndex_neg_one allTypes h]
  rfl

/-- Claim C10 witness: input `0` over a concrete two-element type list
selects the last entry. -/
theorem claim_C10_witness :
    ([".a".data, ".b".data] : List (List Char)) ≠ [] ∧
    selectFileTypes "0".data [".a".data, ".b".data] = .ok [".b".data] :=
  ⟨by decide, claim_C10 [".a".data, ".b".data] (by decide)⟩

/-- Claim C7 (confirmed): library metadata resolution never fails the run —
with no installed-package metadata and no usable version attribute the
version degrades to `"Unknown"`, and with no module spec or no origin the
library's report is skipped (the report loop writes nothing for it). -/
theorem claim_C7 (env : PyEnv) (lib : List Char) (libs : List (List Char))
    (stamp : List Char) :
    (env.distVersion lib = none →
      (env.importAttr lib = none ∨ env.importAttr lib = some none) →
      get_library_version env lib = "Unknown".data) ∧
    ((env.specOrigin lib = none ∨ env.specOrigin lib = some none) →
      get_library_info env lib = none ∧
      writeLibraryReports env (lib :: libs) stamp =
        writeLibraryReports env libs stamp) := by
  constructor
  · intro h1 h2
    rcases h2 with h2 | h2 <;> simp [get_library_version, h1, h2]
  · intro h
    have hinfo : get_library_info env lib = none := by
      rcases h with h | h <;> simp [get_library_info, h]
    exact ⟨hinfo, by simp [writeLibraryReports, hinfo]⟩

/-- Claim C7 witness: a concrete unresolvable library reports version
`Unknown` and produces no report file. -/
theorem claim_C7_witness :
    envNone.distVersion "numpy".data = none ∧
    (envNone.importAttr "numpy".data = none ∨
      envNone.importAttr "numpy".data = some none) ∧
    (envNone.specOrigin "numpy".data = none ∨
      envNone.specOrigin "numpy".data = some none) ∧
    get_library_version envNone "numpy".data = "Unknown".data ∧
    get_library_info envNone "numpy".data = none ∧
    writeLibraryReports envNone ["numpy".data] "ts".data =
      writeLibraryReports envNone [] "ts".data :=
  ⟨rfl, Or.inl rfl, Or.inl rfl,
    (claim_C7 envNone "numpy".data [] "ts".data).1 rfl (Or.inl rfl),
    ((claim_C7 envNone "numpy".data [] "ts".data).2 (Or.inl rfl)).1,
    ((claim_C7 envNone "numpy".data [] "ts".data).2 (Or.inl rfl)).2⟩

/-- `s` is a node strictly inside the tree `t` (a member of some directory
anywhere below `t`'s own listing). -/
inductive InTree : FSTree → FSTree → Prop where
  | child {c : FSTree} {dname : List Char} {children : List FSTree}
      (hc : c ∈ children) : InTree c (.dir dname children)
  | step {c mid : FSTree} {dname : List Char} {children : List FSTree}
      (hm : mid ∈ children) (h : InTree c mid) : InTree c (.dir dname children)

theorem mem_impTypesList {x : List Char} : ∀ {l : List FSTree},
    x ∈ impTypesList l ↔ ∃ y ∈ l, x ∈ impTypes y := by
  intro l
  induction l with
  | nil => simp [impTypesList]
  | cons a as ih => simp [impTypesList, ih]

theorem mem_impTypes_of_inTree {x : List Char} :
    ∀ {s t : FSTree}, InTree s t → x ∈ impTypes s → x ∈ impTypes t := by
  intro s t hin
  induction hin with
  | child hc =>
    intro hx
    rw [impTypes, mem_impTypesList]
    exact ⟨_, hc, hx⟩
  | step hm _ ih =>
    intro hx
    rw [impTypes, mem_impTypesList]
    exact ⟨_, hm, ih hx⟩

theorem mem_get_imported_libraries_of_inTree {x : List Char} {s t : FSTree}
    (hin : InTree s t) (hx : x ∈ impTypes s) :
    x ∈ get_imported_libraries t := by
  cases hin with
  | child hc =>
    rw [get_imported_libraries, mem_impTypesList]
    exact ⟨_, hc, hx⟩
  | step hm h =>
    rw [get_imported_libraries, mem_impTypesList]
    exact ⟨_, hm, mem_impTypes_of_inTree h hx⟩

theorem processFile_mem {x : List Char} :
    ∀ (pre : List (List Char)) (l : List Char) (post : List (List Char)),
    (∀ l2 ∈ pre, processLine l2 ≠ .error ()) →
    processLine l = .ok (some x) →
    x ∈ processFile (pre ++ l :: post)
  | [], l, post, _, hl => by
    simp only [List.nil_append, processFile, hl]
    exact List.mem_cons_self _ _
  | p :: ps, l, post, hpre, hl => by
    have hp : processLine p ≠ .error () := hpre p (List.mem_cons_self _ _)
    have hps : ∀ l2 ∈ ps, processLine l2 ≠ .error () :=
      fun l2 m => hpre l2 (List.mem_cons_of_mem _ m)
    have ih := processFile_mem ps l post hps hl
    simp only [List.cons_append, processFile]
    match he : processLine p with
    | .error () => exact absurd he hp
    | .ok none => exact ih
    | .ok (some y) => exact List.mem_cons_of_mem _ ih

theorem processLine_from_dot {l : List Char} {rest : List (List Char)}
    (hfrom : pyStartsWith l ("from ".data) = true)
    (hsplit : pySplitWs l = "from".data :: ['.'] :: rest) :
    processLine l = .ok (some []) := by
  unfold processLine
  rw [hsplit, hfrom]
  simp
  rfl

/-- Claim C9 (amended): a scanned `.py` file containing a relative-import
line whose second whitespace token is `.` makes `get_imported_libraries`
add the empty string to the returned set — provided no earlier line of that
same file raises an error inside the scanning loop (the bare `except`
abandons the remainder of a file after, e.g., a bare `import `/`from ` line
with no second token). -/
theorem claim_C9 (t : FSTree) (name s : List Char) (m : Nat)
    (pre post : List (List Char)) (l : List Char) (rest : List (List Char))
    (hin : InTree (.file name (.text s) m) t)
    (hpy : pyEndsWith name (".py".data) = true)
    (hlines : pyLines (translateNewlines s) = pre ++ l :: post)
    (hpre : ∀ l2 ∈ pre, processLine l2 ≠ .error ())
    (hfrom : pyStartsWith l ("from ".data) = true)
    (hsplit : pySplitWs l = "from".data :: ['.'] :: rest) :
    ([] : List Char) ∈ get_imported_libraries t := by
  have hline : processLine l = .ok (some []) := processLine_from_dot hfrom hsplit
  have hfile : ([] : List Char) ∈ impTypes (.file name (.text s) m) := by
    rw [impTypes]
    simp only [fileImports, hpy, if_true, hlines]
    rw [List.mem_toFinset]
    exact processFile_mem pre l post hpre hline
  exact mem_get_imported_libraries_of_inTree hin hfile

/-- Claim C9 witness: the empty string lands in the library set of a
concrete tree containing `from . import x`. -/
theorem claim_C9_witness :
    pyEndsWith "a.py".data (".py".data) = true ∧
    pyLines (translateNewlines "from . import x\n".data) =
      [] ++ "from . import x\n".data :: [] ∧
    pyStartsWith "from . import x\n".data ("from ".data) = true ∧
    pySplitWs "from . import x\n".data =
      "from".data :: ['.'] :: ["import".data, "x".data] ∧
    ([] : List Char) ∈ get_imported_libraries treeC9 :=
  ⟨by decide, by decide, by decide, by decide,
    claim_C9 treeC9 "a.py".data "from . import x\n".data 0 []
      [] "from . import x\n".data ["import".data, "x".data]
      (InTree.child (List.mem_cons_self _ _)) (by decide) (by decide)
      (by simp) (by decide) (by decide)⟩

/-- Claim C9 counterexample: a scanned source file that contains a
relative-import line with second token `.` after an earlier malformed
line contributes nothing — the empty string is not added, refuting the
claim as stated. -/
theorem claim_C9_counterexample :
    pyStartsWith "from . import x\n".data ("from ".data) = true ∧
    (pySplitWs "from . import x\n".data).get? 1 = some ['.'] ∧
    pyLines (translateNewlines "import \nfrom . import x\n".data) =
      ["import \n".data, "from . import x\n".data] ∧
    ([] : List Char) ∉ get_imported_libraries treeC9cex := by
  refine ⟨by decide, by decide, by decide, ?_⟩
  decide

theorem mapM_toHashable_of_all : ∀ (l : List Json), l.all isHashable = true →
    l.mapM toHashable = .ok (l.filterMap hashOf)
  | [], _ => rfl
  | a :: as, h => by
    have ha : isHashable a = true := by
      simp only [List.all_cons, Bool.and_eq_true] at h
      exact h.1
    have has : as.all isHashable = true := by
      simp only [List.all_cons, Bool.and_eq_true] at h
      exact h.2
    rw [List.mapM_cons, mapM_toHashable_of_all as has]
    cases a with
    | str s => rfl
    | prim n => rfl
    | arr l2 => simp [isHashable] at ha
    | obj kvs => simp [isHashable] at ha

theorem pySetOf_of_okSetVal : ∀ {v : Json}, okSetVal v = true →
    pySetOf v = .ok (hashListOf v).dedup := by
  intro v h
  cases v with
  | arr l =>
    simp only [pySetOf, hashListOf]
    rw [mapM_toHashable_of_all l (by simpa [okSetVal] using h)]
    rfl
  | str s => simp [okSetVal] at h
  | prim n => simp [okSetVal] at h
  | obj kvs => simp [okSetVal] at h

theorem load_config_of_good (cr : ConfigRead)
    (pf : Option (List (List Char))) (h : goodConfig cr = true) :
    load_config cr pf = .ok
      { ignored_extensions :=
          pyUnion (cfgVals cr extKey).dedup
            ((parsePatterns (pf.getD [])).1.map PyVal.str)
        ignored_folders :=
          pyUnion (cfgVals cr fldKey).dedup
            ((parsePatterns (pf.getD [])).2.map PyVal.str)
        others := cfgOthers cr } := by
  cases cr with
  | missing => rfl
  | emptyContent => rfl
  | malformed => rfl
  | parsed j =>
    cases j with
    | str s => simp [goodConfig] at h
    | prim n => simp [goodConfig] at h
    | arr l => simp [goodConfig] at h
    | obj kvs =>
      simp only [goodConfig, Bool.and_eq_true] at h
      have he := pySetOf_of_okSetVal h.1
      have hf := pySetOf_of_okSetVal h.2
      simp only [load_config, jGet]
      simp only [bind, Except.bind]
      rw [he, hf]
      simp [cfgVals, cfgRaw, cfgOthers]

theorem toFinset_dedup {α : Type} [DecidableEq α] (l : List α) :
    l.dedup.toFinset = l.toFinset := by
  ext x
  simp [List.mem_dedup]

theorem toFinset_pyUnion (a b : List PyVal) :
    (pyUnion a b).toFinset = a.toFinset ∪ b.toFinset := by
  ext x
  simp [pyUnion, List.mem_dedup]

/-- Claim C6 (amended): `load_config` tolerates an absent, empty or
JSON-malformed config file — those cases and every JSON object whose
ignore-key values (when present) are arrays of strings/primitives yield,
without error, ignore sets equal to the union of the config-file values and
the ignore-rules-file values, with empty defaults for a missing source.
(For syntactically valid JSON whose top level is not an object, however,
`config.get` raises an uncaught `AttributeError`; see the
counterexample.) -/
theorem claim_C6 (cr : ConfigRead) (pf : Option (List (List Char)))
    (h : goodConfig cr = true) :
    isErr (load_config cr pf) = false ∧
    (loadedExtensions (load_config cr pf)).toFinset =
      (cfgVals cr extKey).toFinset ∪
        ((parsePatterns (pf.getD [])).1.map PyVal.str).toFinset ∧
    (loadedFolders (load_config cr pf)).toFinset =
      (cfgVals cr fldKey).toFinset ∪
        ((parsePatterns (pf.getD [])).2.map PyVal.str).toFinset := by
  rw [load_config_of_good cr pf h]
  refine ⟨rfl, ?_, ?_⟩ <;>
    simp [loadedExtensions, loadedFolders, toFinset_pyUnion, toFinset_dedup]

/-- Claim C6 witness: a concrete well-formed config file plus a concrete
rules file load without error into the union of both sources. -/
theorem claim_C6_witness :
    goodConfig crC6 = true ∧
    isErr (load_config crC6 (some [".txt".data, "# c".data, "build".data])) =
      false ∧
    (loadedExtensions
        (load_config crC6 (some [".txt".data, "# c".data, "build".data]))).toFinset =
      (cfgVals crC6 extKey).toFinset ∪
        ((parsePatterns [".txt".data, "# c".data, "build".data]).1.map
          PyVal.str).toFinset :=
  ⟨by decide,
    (claim_C6 crC6 (some [".txt".data, "# c".data, "build".data]) (by decide)).1,
    (claim_C6 crC6 (some [".txt".data, "# c".data, "build".data]) (by decide)).2.1⟩

/-- Claim C6 counterexample: the config-file content `[]` is valid JSON, so
`json.loads` succeeds, but the loaded value is a list and
`config.get('ignored_extensions', [])` raises an uncaught `AttributeError` —
`load_config` does fail on this content. -/
theorem claim_C6_counterexample :
    isErr (load_config (.parsed (.arr [])) none) = true := rfl

theorem lookupLast_append_ext (others : List (List Char × Json)) (e f : Json) :
    lookupLast (others ++ [(extKey, e), (fldKey, f)]) extKey = some e := by
  unfold lookupLast
  rw [List.filterMap_append]
  have h2 : List.filterMap
      (fun kv => if kv.1 = extKey then some kv.2 else none)
      [(extKey, e), (fldKey, f)] = [e] := by
    simp [extKey, fldKey]
  rw [h2]
  exact List.getLast?_concat _

theorem lookupLast_append_fld (others : List (List Char × Json)) (e f : Json) :
    lookupLast (others ++ [(extKey, e), (fldKey, f)]) fldKey = some f := by
  unfold lookupLast
  rw [List.filterMap_append]
  have h2 : List.filterMap
      (fun kv => if kv.1 = fldKey then some kv.2 else none)
      [(extKey, e), (fldKey, f)] = [f] := by
    simp [extKey, fldKey]
  rw [h2]
  exact List.getLast?_concat _

theorem isHashable_pyValToJson (v : PyVal) :
    isHashable (pyValToJson v) = true := by
  cases v <;> rfl

theorem hashOf_pyValToJson (v : PyVal) :
    hashOf (pyValToJson v) = some v := by
  cases v <;> rfl

theorem okSetVal_map_pyValToJson (l : List PyVal) :
    okSetVal (.arr (l.map pyValToJson)) = true := by
  simp [okSetVal, List.all_map, List.all_eq_true, isHashable_pyValToJson]

theorem hashListOf_map_pyValToJson : ∀ (l : List PyVal),
    hashListOf (.arr (l.map pyValToJson)) = l
  | [] => rfl
  | v :: vs => by
    have ih := hashListOf_map_pyValToJson vs
    simp only [hashListOf, List.filterMap] at ih ⊢
    simp [List.map_cons, List.filterMap_cons, hashOf_pyValToJson, ih]

theorem goodConfig_save (c : LoadedConfig) :
    goodConfig (.parsed (save_config c)) = true := by
  simp only [save_config, goodConfig]
  rw [lookupLast_append_ext, lookupLast_append_fld]
  simp [okSetVal_map_pyValToJson]

theorem cfgVals_save_ext (c : LoadedConfig) :
    cfgVals (.parsed (save_config c)) extKey = c.ignored_extensions := by
  simp only [save_config, cfgVals, cfgRaw]
  rw [lookupLast_append_ext]
  exact hashListOf_map_pyValToJson _

theorem cfgVals_save_fld (c : LoadedConfig) :
    cfgVals (.parsed (save_config c)) fldKey = c.ignored_folders := by
  simp only [save_config, cfgVals, cfgRaw]
  rw [lookupLast_append_fld]
  exact hashListOf_map_pyValToJson _

/-- Claim C4 (amended): saving a configuration with `save_config` and
loading with `load_config` yields the same ignored-extensions and
ignored-folders sets (as sets, order-independent) provided every pattern
the ignore-rules file contributes is already in the corresponding set of
the record — in particular whenever the rules file is absent, empty, or the
record itself came from `load_config` over the same rules file.  Without
that proviso the loaded sets are the saved sets unioned with the rules-file
patterns (see the counterexample). -/
theorem claim_C4 (c : LoadedConfig) (pf : Option (List (List Char)))
    (hext : ∀ x ∈ (parsePatterns (pf.getD [])).1,
      PyVal.str x ∈ c.ignored_extensions)
    (hfld : ∀ x ∈ (parsePatterns (pf.getD [])).2,
      PyVal.str x ∈ c.ignored_folders) :
    isErr (load_config (.parsed (save_config c)) pf) = false ∧
    (loadedExtensions (load_config (.parsed (save_config c)) pf)).toFinset =
      c.ignored_extensions.toFinset ∧
    (loadedFolders (load_config (.parsed (save_config c)) pf)).toFinset =
      c.ignored_folders.toFinset := by
  rw [load_config_of_good _ pf (goodConfig_save c)]
  refine ⟨rfl, ?_, ?_⟩
  · simp only [loadedExtensions, toFinset_pyUnion, toFinset_dedup,
      cfgVals_save_ext]
    apply Finset.union_eq_left.mpr
    intro x hx
    simp only [List.mem_toFinset, List.mem_map] at hx ⊢
    obtain ⟨y, hy, rfl⟩ := hx
    exact hext y hy
  · simp only [loadedFolders, toFinset_pyUnion, toFinset_dedup,
      cfgVals_save_fld]
    apply Finset.union_eq_left.mpr
    intro x hx
    simp only [List.mem_toFinset, List.mem_map] at hx ⊢
    obtain ⟨y, hy, rfl⟩ := hx
    exact hfld y hy

/-- Claim C4 witness: a concrete record round-trips to the same sets when
the rules file only repeats patterns the record already holds. -/
theorem claim_C4_witness :
    (∀ x ∈ (parsePatterns [".txt".data]).1,
      PyVal.str x ∈ cfgC4w.ignored_extensions) ∧
    (∀ x ∈ (parsePatterns [".txt".data]).2,
      PyVal.str x ∈ cfgC4w.ignored_folders) ∧
    (loadedExtensions
        (load_config (.parsed (save_config cfgC4w)) (some [".txt".data]))).toFinset =
      cfgC4w.ignored_extensions.toFinset ∧
    (loadedFolders
        (load_config (.parsed (save_config cfgC4w)) (some [".txt".data]))).toFinset =
      cfgC4w.ignored_folders.toFinset :=
  ⟨by decide, by decide,
    (claim_C4 cfgC4w (some [".txt".data]) (by decide) (by decide)).2.1,
    (claim_C4 cfgC4w (some [".txt".data]) (by decide) (by decide)).2.2⟩

/-- Claim C4 counterexample: with an ignore-rules file containing the single
pattern `x`, saving and re-loading a configuration with empty ignore sets
does not yield the same ignored-folders set — the rules-file pattern is
unioned in. -/
theorem claim_C4_counterexample :
    (loadedFolders
        (load_config (.parsed (save_config cfgC4)) (some ["x".data]))).toFinset ≠
      cfgC4.ignored_folders.toFinset := by
  decide

mutual

theorem ftTypes_not_ignored (ignExt ignFld : List (List Char)) :
    ∀ (t : FSTree) (p e : List Char),
    e ∈ ftTypes ignExt ignFld p t → e ∉ ignExt
  | .file name _ _, p, e, h => by
    simp only [ftTypes] at h
    split at h
    · rename_i hcond
      rw [Finset.mem_singleton] at h
      subst h
      exact hcond.2
    · simp at h
  | .dir name children, p, e, h => by
    simp only [ftTypes] at h
    split at h
    · simp at h
    · exact ftTypesList_not_ignored ignExt ignFld children (joinPath p name) e h

theorem ftTypesList_not_ignored (ignExt ignFld : List (List Char)) :
    ∀ (l : List FSTree) (p e : List Char),
    e ∈ ftTypesList ignExt ignFld p l → e ∉ ignExt
  | [], p, e, h => by simp [ftTypesList] at h
  | c :: rest, p, e, h => by
    rw [ftTypesList, Finset.mem_union] at h
    rcases h with h | h
    · exact ftTypes_not_ignored ignExt ignFld c p e h
    · exact ftTypesList_not_ignored ignExt ignFld rest p e h

end

mutual

theorem cpEntries_selected (fileTypes ignExt ignFld : List (List Char))
    (dt : DateTime6) (now : Nat) :
    ∀ (t : FSTree) (p : List Char) (rel : List (List Char))
      (entry : CopyEntry),
    entry ∈ cpEntries fileTypes ignExt ignFld dt now p rel t →
    entry.ext ∉ ignExt ∧ entry.ext ∈ fileTypes
  | .file name data m, p, rel, entry, h => by
    simp only [cpEntries] at h
    split at h
    · simp at h
    · rename_i hcond
      rw [not_or] at hcond
      rw [List.mem_singleton] at h
      subst h
      exact ⟨hcond.1, not_not.mp hcond.2⟩
  | .dir name children, p, rel, entry, h => by
    simp only [cpEntries] at h
    split at h
    · simp at h
    · exact cpEntriesList_selected fileTypes ignExt ignFld dt now children
        (joinPath p name) (rel ++ [name]) entry h

theorem cpEntriesList_selected (fileTypes ignExt ignFld : List (List Char))
    (dt : DateTime6) (now : Nat) :
    ∀ (l : List FSTree) (p : List Char) (rel : List (List Char))
      (entry : CopyEntry),
    entry ∈ cpEntriesList fileTypes ignExt ignFld dt now p rel l →
    entry.ext ∉ ignExt ∧ entry.ext ∈ fileTypes
  | [], p, rel, entry, h => by simp [cpEntriesList] at h
  | c :: rest, p, rel, entry, h => by
    rw [cpEntriesList, List.mem_append] at h
    rcases h with h | h
    · exact cpEntries_selected fileTypes ignExt ignFld dt now c p rel entry h
    · exact cpEntriesList_selected fileTypes ignExt ignFld dt now rest p rel
        entry h

end

/-- Claim C1 (amended): within one run the same loaded ignore sets are used
by extension discovery, the codemap and the copy, and for those three: a
directory whose joined path matches an ignored-folder pattern is pruned
from extension discovery and from the copy with its whole subtree, any
entry (file or directory) whose path matches such a pattern is omitted from
the codemap, an ignored extension never appears in the discovered extension
set, a file with ignored extension gets no codemap line, and every copied
file's extension is both un-ignored and among the selected types.  However
the import scan (`get_imported_libraries`) takes no ignore sets at all —
every `.py` file's contribution, wherever it sits, reaches the library
set — and a file (as opposed to a directory) matching an ignored-folder
pattern is excluded only from the codemap, not from the extension scan or
the copy (see the counterexample). -/
theorem claim_C1 :
    (∀ (ignExt ignFld : List (List Char)) (p name : List Char)
        (children : List FSTree),
      anyMatch ignFld (joinPath p name) = true →
      ftTypes ignExt ignFld p (.dir name children) = ∅) ∧
    (∀ (fileTypes ignExt ignFld : List (List Char)) (dt : DateTime6)
        (now : Nat) (p name : List Char) (rel : List (List Char))
        (children : List FSTree),
      anyMatch ignFld (joinPath p name) = true →
      cpEntries fileTypes ignExt ignFld dt now p rel (.dir name children) = []) ∧
    (∀ (ignExt ignFld : List (List Char)) (lvl : Nat) (p : List Char)
        (t : FSTree),
      anyMatch ignFld (joinPath p t.entryName) = true →
      cmLines ignExt ignFld lvl p t = []) ∧
    (∀ (ignExt ignFld : List (List Char)) (lvl : Nat) (p name : List Char)
        (data : Content) (m : Nat),
      pyExt name ∈ ignExt →
      cmLines ignExt ignFld lvl p (.file name data m) = []) ∧
    (∀ (rootPath : List Char) (t : FSTree)
        (ignExt ignFld : List (List Char)) (e : List Char),
      e ∈ get_file_types rootPath t ignExt ignFld → e ∉ ignExt) ∧
    (∀ (rootPath : List Char) (t : FSTree)
        (fileTypes ignExt ignFld : List (List Char)) (dt : DateTime6)
        (now : Nat) (entry : CopyEntry),
      entry ∈ copy_files rootPath t fileTypes ignExt ignFld dt now →
      entry.ext ∉ ignExt ∧ entry.ext ∈ fileTypes) ∧
    (∀ (s t : FSTree) (x : List Char),
      InTree s t → x ∈ impTypes s → x ∈ get_imported_libraries t) := by
  refine ⟨?_, ?_, ?_, ?_, ?_, ?_, ?_⟩
  · intro ignExt ignFld p name children h
    simp [ftTypes, h]
  · intro fileTypes ignExt ignFld dt now p name rel children h
    simp [cpEntries, h]
  · intro ignExt ignFld lvl p t h
    cases t with
    | file name data m => simp only [FSTree.entryName] at h; simp [cmLines, h]
    | dir name children => simp only [FSTree.entryName] at h; simp [cmLines, h]
  · intro ignExt ignFld lvl p name data m h
    by_cases hm : anyMatch ignFld (joinPath p name) = true
    · simp [cmLines, hm]
    · simp [cmLines, hm, h]
  · intro rootPath t ignExt ignFld e h
    cases t with
    | file name data m => simp [get_file_types] at h
    | dir name children =>
      exact ftTypesList_not_ignored ignExt ignFld children rootPath e h
  · intro rootPath t fileTypes ignExt ignFld dt now entry h
    cases t with
    | file name data m => simp [copy_files] at h
    | dir name children =>
      exact cpEntriesList_selected fileTypes ignExt ignFld dt now children
        rootPath [] entry h
  · intro s t x hin hx
    exact mem_get_imported_libraries_of_inTree hin hx

/-- Claim C1 counterexample: with `*build` and `*secret.py` as
ignored-folder patterns over a concrete tree, the import of the `.py` file
inside the matched `build` folder still reaches the library set, the
extension of the matched file `secret.py` still reaches the extension set,
and `secret.py` is still copied — matched items are not absent from all
four outputs. -/
theorem claim_C1_counterexample :
    anyMatch ignFldC1 (joinPath "r".data "build".data) = true ∧
    anyMatch ignFldC1 (joinPath "r".data "secret.py".data) = true ∧
    "os".data ∈ get_imported_libraries treeC1 ∧
    ".py".data ∈ get_file_types "r".data treeC1 [] ignFldC1 ∧
    "r/secret.py".data ∈
      (copy_files "r".data treeC1 [".py".data] [] ignFldC1
          ⟨2024, 1, 2, 3, 4, 5⟩ 0).map CopyEntry.srcPath := by
  refine ⟨by decide, by decide, by decide, by decide, ?_⟩
  decide

/-- Claim C1 witness: concrete instances of the pruning facts — a matched
directory contributes no extensions, and an ignored-extension file gets no
codemap line. -/
theorem claim_C1_witness :
    anyMatch ["*build".data] (joinPath "r".data "build".data) = true ∧
    ftTypes [] ["*build".data] "r".data
        (.dir "build".data [.file "a.py".data (.text "x".data) 0]) = ∅ ∧
    pyExt "a.tmp".data ∈ [".tmp".data] ∧
    cmLines [".tmp".data] [] 0 "r".data
        (.file "a.tmp".data (.text "x".data) 0) = [] :=
  ⟨by decide,
    claim_C1.1 [] ["*build".data] "r".data "build".data
      [.file "a.py".data (.text "x".data) 0] (by decide),
    by decide,
    claim_C1.2.2.2.1 [".tmp".data] [] 0 "r".data "a.tmp".data
      (.text "x".data) 0 (by decide)⟩

end Extractor
